import Mathlib

/-!
Verification of the LibAFLstar stateful fuzzer against its natural-language
specification.  The Rust source is shallowly embedded: each relevant function
is translated into an executable Lean definition (machine integers become
`Nat`/`Int`, fallible code returns `Except`, side effects such as signals sent
to processes or events fired at the event manager become explicit values
returned next to the new state).  Theorems about these definitions settle the
spec claims.
-/

namespace LibAFLStar

/-- Model of `libafl_bolts::Error`.  Only the constructors used by the
embedded code are modelled; messages are kept as plain strings. -/
inductive Err
  | illegalArgument (msg : String)
  | illegalState (msg : String)
  | unknown (msg : String)
  | timeoutErr (msg : String)
  deriving Repr, DecidableEq

/-- Model of `libafl::executors::ExitKind` (the variants this code base uses). -/
inductive ExitKind
  | ok
  | crash
  | timeout
  | oom
  deriving Repr, DecidableEq

/-- POSIX signals used by the embedded code. -/
inductive Signal
  | sigkill
  | sigterm
  | other (n : Nat)
  deriving Repr, DecidableEq

/-! ## Stateful persistent executor (`src/executor/stateful.rs`) -/

/-- The fields of `Forkserver` that `stateful.rs` reads and writes:
`last_run_timed_out` and `child_pid` (a raw pid, `Option` because it is
cleared between children).  From `src/executor/forkserver.rs`. -/
structure Forkserver where
  last_run_timed_out : Bool
  child_pid : Option Int
  deriving Repr, DecidableEq

/-- Embeds `StatefulPersistentExecutor` from `src/executor/stateful.rs`: the wrapped
forkserver plus the two wrapper flags. -/
structure StatefulPersistentExecutor where
  forkserver : Forkserver
  state_reset_occurred : Bool
  child_was_reset : Bool
  deriving Repr, DecidableEq

/-- Embeds `StatefulPersistentExecutor::reset_target_state`
(`src/executor/stateful.rs`, lines 80-111).  The returned list records the
pids to which a SIGKILL was sent (the `kill` syscall result is only logged in
the source, so a failed kill does not change control flow). -/
def reset_target_state (e : StatefulPersistentExecutor) :
    Except Err (StatefulPersistentExecutor × List Int) :=
  let timed_out := e.forkserver.last_run_timed_out
  match e.forkserver.child_pid with
  | some _child_pid =>
    if timed_out then
      .error (.illegalState
        "Last execution timed out, but there is still a child_pid set.")
    else
      let child_pid := _child_pid
      let (fs, kills) :=
        if child_pid > 0 then
          ({ last_run_timed_out := true, child_pid := none }, [child_pid])
        else
          (e.forkserver, ([] : List Int))
      .ok ({ e with forkserver := fs
                    child_was_reset := true
                    state_reset_occurred := false }, kills)
  | none =>
      -- reset not needed: the child is already gone (timeout) or never existed
      .ok ({ e with child_was_reset := true
                    state_reset_occurred := false }, [])

/-! ## State scheduler (`src/state_scheduler.rs`) -/

/-- The slice of `LibAFLStarState` that the state schedulers interact with.
`idx` is `current_state_idx`, `num_states` is `states_len`, `fuzz_cycles`
holds each inner state's `fuzz_cycles` counter (indexed by state id),
`history_map` is the `MapFeedbackMetadata<u8>` history map stored under the
name `mapfeedback_metadata_shared_mem`, and `index_counts`/`novelties` are the
two `HashMap<TargetStateIdx, usize>` maps of `NoveltyIsBetterMetadata`
(modelled as association lists). -/
structure SchedState where
  idx : Nat
  num_states : Nat
  fuzz_cycles : List Nat
  history_map : List Nat
  index_counts : List (Nat × Nat)
  novelties : List (Nat × Nat)
  deriving Repr, DecidableEq

/-- Lookup in an association-list model of `HashMap<TargetStateIdx, usize>`. -/
def alist_get (m : List (Nat × Nat)) (k : Nat) : Option Nat :=
  match m with
  | [] => none
  | (k2, v) :: rest => if k2 = k then some v else alist_get rest k

/-- Insert-or-replace in the association-list model of the hash map. -/
def alist_insert (m : List (Nat × Nat)) (k : Nat) (v : Nat) : List (Nat × Nat) :=
  match m with
  | [] => [(k, v)]
  | (k2, v2) :: rest =>
    if k2 = k then (k, v) :: rest else (k2, v2) :: alist_insert rest k v

theorem alist_get_insert_self (m : List (Nat × Nat)) (k v : Nat) :
    alist_get (alist_insert m k v) k = some v := by
  induction m with
  | nil => simp [alist_get, alist_insert]
  | cons hd tl ih =>
    obtain ⟨k2, v2⟩ := hd
    by_cases h : k2 = k <;> simp [alist_get, alist_insert, h, ih]

/-- The fold in `NoveltySearchInner::get_weights` counting the non-zero
entries of the history map (`src/state_scheduler.rs`, lines 243-245). -/
def count_non_zero (m : List Nat) : Nat :=
  m.foldl (fun acc e => if e ≠ 0 then acc + 1 else acc) 0

/-- Embeds `NoveltySearchInner::get_weights` (`src/state_scheduler.rs`,
lines 216-266).  The named-metadata lookup of the history map is modelled as
the `history_map` field (the scheduler errors out when the entry is missing;
the fuzzer setup always installs it before scheduling starts).  `checked_sub`
returning `None` becomes the explicit comparison.  Returns the updated state
and the weight pairs. -/
def novelty_get_weights (s : SchedState) :
    Except Err (SchedState × List (Nat × Nat)) :=
  let curr_idx := s.idx
  let curr_cnt := count_non_zero s.history_map
  -- get the previous count while replacing/storing the new index count
  let prev_cnt := (alist_get s.index_counts curr_idx).getD 0
  let s1 := { s with index_counts := alist_insert s.index_counts curr_idx curr_cnt }
  if curr_cnt < prev_cnt then
    .error (.illegalState
      "MapFeedbackMetadata history map got smaller, but it should only increase")
  else
    let s2 := { s1 with
      novelties := alist_insert s1.novelties curr_idx (curr_cnt - prev_cnt) }
    .ok (s2, s2.novelties)

/-- Embeds `MultipleStates::switch_state` as specialised to the scheduler state
(`src/state.rs`, lines 732-739).  The Rust guard is
`idx.0 > self.num_states - 1` on `usize`; for `num_states ≥ 1` (guaranteed by
construction, claim C10) the `Nat` subtraction below agrees with it. -/
def SchedState.switch_state (s : SchedState) (i : Nat) : Except Err SchedState :=
  if i > s.num_states - 1 then .error (.illegalState "No such state for idx")
  else .ok { s with idx := i }

/-- The scan loop of `UnusedFirst::choose_next_state`
(`src/state_scheduler.rs`, lines 317-327) over the remaining state ids:
switch to each id, return it (after switching back to `curr_idx`) when its
`fuzz_cycles` is 0.  `none` in the second component means the loop fell
through.  Reading `fuzz_cycles` of the selected state is
`fuzz_cycles.getD idx 0` (in-bounds whenever `fuzz_cycles` has one entry per
state, which the theorems assume). -/
def unused_first_loop (curr_idx : Nat) :
    SchedState → List Nat → SchedState × Option (Except Err Nat)
  | s, [] => (s, none)
  | s, i :: rest =>
    match s.switch_state i with
    | .error e => (s, some (.error e))
    | .ok s1 =>
      if s1.fuzz_cycles.getD s1.idx 0 = 0 then
        -- leave state as we found it, so there are no surprises for the caller
        match s1.switch_state curr_idx with
        | .error e => (s1, some (.error e))
        | .ok s2 => (s2, some (.ok i))
      else unused_first_loop curr_idx s1 rest

/-- Embeds `UnusedFirst::choose_next_state` (`src/state_scheduler.rs`,
lines 296-328).  The inner scheduler is an arbitrary state transformer
returning the possibly-updated state and its chosen id (its result is
computed first, even though it is only used when no unused state exists). -/
def unused_first_choose (inner : SchedState → SchedState × Except Err Nat)
    (s : SchedState) : SchedState × Except Err Nat :=
  let (s1, inner_res) := inner s
  let curr_idx := s1.idx
  match unused_first_loop curr_idx s1 (List.range s1.num_states) with
  | (s2, some r) => (s2, r)
  | (s2, none) => (s2, inner_res)

/-- Events fired at the event manager; only `UpdateUserStats` is needed. -/
inductive Event
  | updateUserStats (name : String) (value : Nat)
  deriving Repr, DecidableEq

/-- Embeds `StatefulPersistentExecutor::run_target` (`src/executor/stateful.rs`,
lines 146-194), given the wrapped `ForkserverExecutor::run_target` result.
`meta` is the `timeouts` counter of `StatefulPersistentExecutorMeta` stored in
state metadata (`none` when the metadata entry does not exist yet).  Returns
the propagated result, the updated executor, the updated counter and the list
of events fired (`mgr.fire` is modelled as infallible event emission). -/
def stateful_run_target (e : StatefulPersistentExecutor) (meta : Option Nat)
    (result : Except Err ExitKind) :
    Except Err ExitKind × StatefulPersistentExecutor × Option Nat × List Event :=
  let e := if e.child_was_reset then { e with child_was_reset := false } else e
  match result with
  | .ok .timeout =>
    -- the prefix needs to be sent again
    let e := { e with state_reset_occurred := true }
    -- keep track of timeouts (metadata is created at 0 when absent)
    let timeouts := (match meta with | none => 0 | some t => t) + 1
    -- send timeouts events, but not too often
    let events :=
      if timeouts < 20 ∨ timeouts % 20 = 0 then
        [Event.updateUserStats "timeouts" timeouts]
      else []
    (result, e, some timeouts, events)
  | _ => (result, e, meta, [])

end LibAFLStar

namespace LibAFLStar

/-! ## Theorems for claims C1 and C6 -/

/-- C1 counterexample: `reset_target_state` does NOT set the internal
`state_reset_occurred` flag in non-error cases; it assigns `false` to it.
Starting from an executor whose flag is `true` (no child recorded, last run
not timed out), the call succeeds and leaves the flag `false`, contradicting
the claim that "in every non-error case it sets the internal
`state_reset_occurred` flag". -/
theorem reset_clears_flag_counterexample :
    (reset_target_state ⟨⟨false, none⟩, true, false⟩).toOption.map
      (fun p => p.fst.state_reset_occurred) = some false := rfl

/-- C1 (amended): `reset_target_state` returns an `IllegalState` error exactly
when the last run timed out and a child pid is still recorded; otherwise, when
a (positive) child pid is recorded, it sends SIGKILL to that pid, sets the
last-timed-out flag and clears the stored pid; and in every non-error case it
CLEARS the internal `state_reset_occurred` flag and marks `child_was_reset`. -/
theorem reset_target_state_spec (e : StatefulPersistentExecutor) :
    ((e.forkserver.last_run_timed_out = true ∧ e.forkserver.child_pid ≠ none) ↔
      (∃ msg, reset_target_state e = .error (.illegalState msg)))
    ∧ (∀ p, e.forkserver.child_pid = some p → 0 < p →
        e.forkserver.last_run_timed_out = false →
        reset_target_state e =
          .ok ({ e with forkserver := { last_run_timed_out := true, child_pid := none }
                        child_was_reset := true
                        state_reset_occurred := false }, [p]))
    ∧ (∀ r kills, reset_target_state e = .ok (r, kills) →
        r.state_reset_occurred = false ∧ r.child_was_reset = true) := by
  obtain ⟨⟨tmo, pid⟩, sro, cwr⟩ := e
  refine ⟨?_, ?_, ?_⟩
  · constructor
    · rintro ⟨h1, h2⟩
      cases pid with
      | none => exact absurd rfl h2
      | some p =>
        subst h1
        exact ⟨_, rfl⟩
    · rintro ⟨msg, hmsg⟩
      cases pid with
      | none => simp [reset_target_state] at hmsg
      | some p =>
        cases tmo with
        | true => exact ⟨rfl, by simp⟩
        | false =>
          simp only [reset_target_state, Bool.false_eq_true, if_false] at hmsg
          split at hmsg <;> simp at hmsg
  · rintro p hp hpos hto
    cases hp
    cases hto
    simp [reset_target_state, hpos]
  · rintro r kills h
    cases pid with
    | none =>
      simp only [reset_target_state] at h
      cases h
      exact ⟨rfl, rfl⟩
    | some p =>
      cases tmo with
      | true => simp [reset_target_state] at h
      | false =>
        simp only [reset_target_state, Bool.false_eq_true, if_false] at h
        split at h <;> (cases h; exact ⟨rfl, rfl⟩)

/-- Witness for `reset_target_state_spec`: instantiated at a concrete executor
with a recorded child pid 7 and no previous timeout. -/
theorem reset_target_state_spec_witness :
    reset_target_state ⟨⟨false, some 7⟩, true, false⟩ =
      .ok (⟨⟨true, none⟩, false, true⟩, [7]) :=
  (reset_target_state_spec ⟨⟨false, some 7⟩, true, false⟩).2.1 7 rfl
    (by norm_num) rfl

/-! ## Theorems for claims C2 and C3 -/

/-- C2: each time the novelty scheduler computes weights, the weight recorded
for the currently selected state equals the number of non-zero history-map
bytes now minus the number at that state's previous selection (0 when the
state was never selected), so the recorded novelty is the exact non-negative
difference; when the current count is smaller than the previous one the
computation fails with an `IllegalState` error. -/
theorem novelty_get_weights_spec (s : SchedState) :
    ((alist_get s.index_counts s.idx).getD 0 ≤ count_non_zero s.history_map →
      ∃ t w, novelty_get_weights s = .ok (t, w) ∧
        alist_get w s.idx =
          some (count_non_zero s.history_map -
            (alist_get s.index_counts s.idx).getD 0) ∧
        (alist_get s.index_counts s.idx).getD 0 +
          (count_non_zero s.history_map -
            (alist_get s.index_counts s.idx).getD 0) =
          count_non_zero s.history_map)
    ∧ (count_non_zero s.history_map < (alist_get s.index_counts s.idx).getD 0 →
      ∃ msg, novelty_get_weights s = .error (.illegalState msg)) := by
  constructor
  · intro hle
    refine ⟨{ s with
        index_counts := alist_insert s.index_counts s.idx
          (count_non_zero s.history_map)
        novelties := alist_insert s.novelties s.idx
          (count_non_zero s.history_map -
            (alist_get s.index_counts s.idx).getD 0) },
      alist_insert s.novelties s.idx
        (count_non_zero s.history_map -
          (alist_get s.index_counts s.idx).getD 0), ?_, ?_, ?_⟩
    · unfold novelty_get_weights
      rw [if_neg (by omega)]
    · exact alist_get_insert_self _ _ _
    · omega
  · intro hlt
    refine ⟨"MapFeedbackMetadata history map got smaller, but it should only increase",
      ?_⟩
    unfold novelty_get_weights
    rw [if_pos hlt]

/-- Witness for `novelty_get_weights_spec`: state 2 previously saw 1 non-zero
byte, sees 2 now, so its recorded novelty weight is 1. -/
theorem novelty_get_weights_spec_witness :
    ∃ t w, novelty_get_weights ⟨2, 3, [], [5, 0, 7], [(2, 1)], []⟩ =
        .ok (t, w) ∧ alist_get w 2 = some 1 := by
  obtain ⟨t, w, h1, h2, -⟩ :=
    (novelty_get_weights_spec ⟨2, 3, [], [5, 0, 7], [(2, 1)], []⟩).1 (by decide)
  have e : count_non_zero [5, 0, 7] - (alist_get [(2, 1)] 2).getD 0 = 1 := by
    decide
  exact ⟨t, w, h1, by rw [← e]; exact h2⟩

theorem switch_state_ok (s : SchedState) (i : Nat) (h : i < s.num_states) :
    s.switch_state i = .ok { s with idx := i } := by
  unfold SchedState.switch_state
  rw [if_neg (by omega)]

theorem find?_range'_least {p : Nat → Bool} {j : Nat} :
    ∀ (n a : Nat), (List.range' a n).find? p = some j →
      p j = true ∧ ∀ k, a ≤ k → k < j → p k = false := by
  intro n
  induction n with
  | zero => intro a h; simp [List.range'] at h
  | succ m ih =>
    intro a h
    rw [List.range'] at h
    by_cases hp : p a
    · rw [List.find?_cons_of_pos _ hp] at h
      cases h
      exact ⟨hp, fun k hk1 hk2 => absurd (Nat.lt_of_le_of_lt hk1 hk2)
        (Nat.lt_irrefl _)⟩
    · rw [List.find?_cons_of_neg _ hp] at h
      obtain ⟨hj, hmin⟩ := ih (a + 1) h
      refine ⟨hj, fun k hk1 hk2 => ?_⟩
      rcases Nat.eq_or_lt_of_le hk1 with rfl | hk
      · exact Bool.eq_false_iff.mpr hp
      · exact hmin k hk hk2

/-- Behaviour of the `UnusedFirst` scan loop: on a list of in-range state ids
it returns (after restoring `curr_idx`) the first id whose `fuzz_cycles` is 0,
and falls through (second component `none`) when there is none. -/
theorem unused_first_loop_spec (curr_idx : Nat) (l : List Nat) :
    ∀ (s : SchedState), (∀ i ∈ l, i < s.num_states) → curr_idx < s.num_states →
    (∀ j, l.find? (fun i => s.fuzz_cycles.getD i 0 == 0) = some j →
       unused_first_loop curr_idx s l = ({ s with idx := curr_idx }, some (.ok j)))
    ∧ (l.find? (fun i => s.fuzz_cycles.getD i 0 == 0) = none →
       ∃ t, unused_first_loop curr_idx s l = (t, none)) := by
  induction l with
  | nil =>
    intro s _ _
    refine ⟨fun j hj => by simp [List.find?] at hj, fun _ => ⟨s, rfl⟩⟩
  | cons i rest ih =>
    intro s hl hc
    have hiN : i < s.num_states := hl i (List.mem_cons_self i rest)
    have hloop : unused_first_loop curr_idx s (i :: rest) =
        (if s.fuzz_cycles.getD i 0 = 0 then
          ({ s with idx := curr_idx }, some (.ok i))
        else unused_first_loop curr_idx { s with idx := i } rest) := by
      rw [unused_first_loop, switch_state_ok s i hiN]
      by_cases h0 : s.fuzz_cycles.getD i 0 = 0
      · simp only [h0, if_true]
        rw [switch_state_ok { s with idx := i } curr_idx hc]
      · simp only [h0, if_false]
    by_cases h0 : s.fuzz_cycles.getD i 0 = 0
    · constructor
      · intro j hj
        rw [List.find?_cons_of_pos _ (by simpa using h0)] at hj
        cases hj
        rw [hloop, if_pos h0]
      · intro hnone
        rw [List.find?_cons_of_pos _ (by simpa using h0)] at hnone
        exact absurd hnone (by simp)
    · have ihr := ih { s with idx := i }
        (fun k hk => hl k (List.mem_cons_of_mem i hk)) hc
      constructor
      · intro j hj
        rw [List.find?_cons_of_neg _ (by simpa using h0)] at hj
        rw [hloop, if_neg h0]
        exact ihr.1 j hj
      · intro hnone
        rw [List.find?_cons_of_neg _ (by simpa using h0)] at hnone
        rw [hloop, if_neg h0]
        exact ihr.2 hnone

/-- C3: for every inner scheduler (modelled as an arbitrary state transformer
that, like every scheduler in the source, does not move the selected state id
nor touch `num_states` or the `fuzz_cycles` counters) and every container with
at least one state, `UnusedFirst::choose_next_state` first runs the inner
scheduler; if some state has `fuzz_cycles == 0` it returns the smallest such
state id and leaves the active state id as it was; otherwise it returns the
inner scheduler's result. -/
theorem unused_first_choose_spec
    (inner : SchedState → SchedState × Except Err Nat) (s : SchedState)
    (hidx : s.idx < s.num_states)
    (_hlen : s.fuzz_cycles.length = s.num_states)
    (h1 : (inner s).1.idx = s.idx)
    (h2 : (inner s).1.num_states = s.num_states)
    (h3 : (inner s).1.fuzz_cycles = s.fuzz_cycles) :
    (∀ j, (List.range s.num_states).find?
        (fun i => s.fuzz_cycles.getD i 0 == 0) = some j →
      (unused_first_choose inner s).2 = .ok j
      ∧ (unused_first_choose inner s).1.idx = s.idx
      ∧ s.fuzz_cycles.getD j 0 = 0
      ∧ ∀ k, k < j → s.fuzz_cycles.getD k 0 ≠ 0)
    ∧ ((List.range s.num_states).find?
        (fun i => s.fuzz_cycles.getD i 0 == 0) = none →
      (unused_first_choose inner s).2 = (inner s).2) := by
  have hchoose : unused_first_choose inner s =
      match unused_first_loop (inner s).1.idx (inner s).1
        (List.range (inner s).1.num_states) with
      | (s2, some r) => (s2, r)
      | (s2, none) => (s2, (inner s).2) := by
    rw [unused_first_choose]
  have hspec := unused_first_loop_spec (inner s).1.idx
    (List.range (inner s).1.num_states) (inner s).1
    (fun i hi => List.mem_range.mp hi) (by rw [h1, h2]; exact hidx)
  rw [h1, h2, h3] at hspec
  constructor
  · intro j hj
    have hres := hspec.1 j hj
    rw [hchoose, h1, h2, hres]
    have hleast := find?_range'_least s.num_states 0
      (by rwa [← List.range_eq_range'])
    refine ⟨rfl, rfl, by simpa using hleast.1, fun k hk => ?_⟩
    have := hleast.2 k (Nat.zero_le k) hk
    simpa using this
  · intro hnone
    obtain ⟨t, ht⟩ := hspec.2 hnone
    rw [hchoose, h1, h2, ht]

/-- Witness for `unused_first_choose_spec`: with a `Cycler`-style inner
scheduler and `fuzz_cycles = [1, 0]`, the unused state 1 is returned and the
active state id stays 0. -/
theorem unused_first_choose_spec_witness :
    (unused_first_choose (fun t => (t, .ok ((t.idx + 1) % t.num_states)))
      ⟨0, 2, [1, 0], [], [], []⟩).2 = .ok 1
    ∧ (unused_first_choose (fun t => (t, .ok ((t.idx + 1) % t.num_states)))
      ⟨0, 2, [1, 0], [], [], []⟩).1.idx = 0 := by
  have h := (unused_first_choose_spec
    (fun t => (t, .ok ((t.idx + 1) % t.num_states)))
    ⟨0, 2, [1, 0], [], [], []⟩ (by decide) (by decide) rfl rfl rfl).1 1
    (by decide)
  exact ⟨h.1, h.2.1⟩

/-- C6: when the wrapped executor classifies the execution as `Timeout`, the
wrapper sets `state_reset_occurred`, increments the `timeouts` counter in
state metadata (creating it at 0 first if absent), and fires an
`UpdateUserStats` event exactly when the incremented counter is below 20 or a
multiple of 20.  The propagated result is unchanged. -/
theorem stateful_run_target_timeout_spec (e : StatefulPersistentExecutor)
    (meta : Option Nat) (result : Except Err ExitKind)
    (h : result = .ok .timeout) :
    (stateful_run_target e meta result).2.1.state_reset_occurred = true
    ∧ (stateful_run_target e meta result).2.2.1 = some (meta.getD 0 + 1)
    ∧ ((stateful_run_target e meta result).2.2.2 ≠ [] ↔
        (meta.getD 0 + 1 < 20 ∨ (meta.getD 0 + 1) % 20 = 0))
    ∧ (stateful_run_target e meta result).1 = result := by
  subst h
  refine ⟨?_, ?_, ?_, ?_⟩
  · simp [stateful_run_target]
  · cases meta <;> simp [stateful_run_target]
  · cases meta with
    | none => simp [stateful_run_target]
    | some t =>
      simp only [stateful_run_target, Option.getD]
      split
      · simpa using ‹t + 1 < 20 ∨ (t + 1) % 20 = 0›
      · simpa using ‹¬(t + 1 < 20 ∨ (t + 1) % 20 = 0)›
  · simp [stateful_run_target]

/-- Witness for `stateful_run_target_timeout_spec`: a timeout with the counter
previously at 19 increments it to 20 and still fires an event (20 is a
multiple of 20). -/
theorem stateful_run_target_timeout_spec_witness :
    (stateful_run_target ⟨⟨false, some 3⟩, false, false⟩ (some 19)
        (.ok .timeout)).2.1.state_reset_occurred = true
    ∧ (stateful_run_target ⟨⟨false, some 3⟩, false, false⟩ (some 19)
        (.ok .timeout)).2.2.1 = some 20
    ∧ ((stateful_run_target ⟨⟨false, some 3⟩, false, false⟩ (some 19)
        (.ok .timeout)).2.2.2 ≠ [] ↔ (20 < 20 ∨ 20 % 20 = 0)) := by
  have h := stateful_run_target_timeout_spec ⟨⟨false, some 3⟩, false, false⟩
    (some 19) (.ok .timeout) rfl
  exact ⟨h.1, h.2.1, h.2.2.1⟩

/-! ## Forkserver executor (`src/executor/forkserver.rs`) -/

/-- The forkserver fields touched by the status-wait section of
`ForkserverExecutor::run_target`, plus the configured kill signal. -/
structure ForkserverWait where
  last_run_timed_out : Bool
  status : Int
  kill_signal : Signal
  deriving Repr, DecidableEq

/-- The status-wait section of `ForkserverExecutor::run_target`
(`src/executor/forkserver.rs`, lines 1362-1390).  `first_read` is the result
of `read_st_timed` with the configured per-execution timeout, `fallback_read`
the result of the 2-second fallback `read_st_timed` (performed only on the
timeout path); `child_pid` is the pid read earlier in the same cycle.
`wifsignaled` is the `libc::WIFSIGNALED` predicate (external libc macro, kept
abstract).  Returns the exit classification, the updated forkserver fields and
the signals sent. -/
def run_target_wait (wifsignaled : Int → Bool) (fs : ForkserverWait)
    (child_pid : Int) (first_read : Option Int) (fallback_read : Option Int) :
    Except Err (ExitKind × ForkserverWait × List (Int × Signal)) :=
  match first_read with
  | some status =>
    let fs := { fs with status := status }
    let exit_kind := if wifsignaled fs.status then ExitKind.crash else ExitKind.ok
    .ok (exit_kind, fs, [])
  | none =>
    let fs := { fs with last_run_timed_out := true }
    -- kill the child so the next pid read is for a newly forked child
    let kills := [(child_pid, fs.kill_signal)]
    match fallback_read with
    | some status => Except.ok (ExitKind.timeout, { fs with status := status }, kills)
    | none => .error (.timeoutErr "Could not read from forkserver after timeout")

/-- C4: if a completion status arrives within the per-execution timeout the
execution is classified `Crash` when `WIFSIGNALED` holds of it and `Ok`
otherwise; if not, the executor marks the next control-pipe write as
last-timed-out, sends the configured kill signal to the child, reads again
with the 2-second fallback and classifies `Timeout`; a fatal timeout error is
returned only when the fallback read also yields nothing. -/
theorem run_target_wait_spec (wifsignaled : Int → Bool) (fs : ForkserverWait)
    (child_pid : Int) (first_read fallback_read : Option Int) :
    (∀ st, first_read = some st →
      run_target_wait wifsignaled fs child_pid first_read fallback_read =
        .ok ((if wifsignaled st then .crash else .ok),
          { fs with status := st }, []))
    ∧ (first_read = none → ∀ st, fallback_read = some st →
      run_target_wait wifsignaled fs child_pid first_read fallback_read =
        .ok (.timeout, { fs with last_run_timed_out := true, status := st },
          [(child_pid, fs.kill_signal)]))
    ∧ (first_read = none → fallback_read = none →
      ∃ msg, run_target_wait wifsignaled fs child_pid first_read fallback_read =
        .error (.timeoutErr msg)) := by
  refine ⟨?_, ?_, ?_⟩
  · rintro st rfl
    rfl
  · rintro rfl st rfl
    rfl
  · rintro rfl rfl
    exact ⟨_, rfl⟩

/-- Witness for `run_target_wait_spec`: a timed-out first read followed by a
successful fallback read classifies the run as a timeout, marks the
last-timed-out flag and kills pid 5 with the configured signal. -/
theorem run_target_wait_spec_witness :
    run_target_wait (fun st => st == 9) ⟨false, 0, .sigterm⟩ 5 none (some 9) =
      .ok (.timeout, ⟨true, 9, .sigterm⟩, [(5, .sigterm)]) :=
  (run_target_wait_spec (fun st => st == 9) ⟨false, 0, .sigterm⟩ 5 none
    (some 9)).2.1 rfl 9 rfl

/-- Embeds `SHMEM_FUZZ_HDR_SIZE` (`src/executor/forkserver.rs`, line 89). -/
def SHMEM_FUZZ_HDR_SIZE : Nat := 4

/-- The eight bytes of `usize::to_le_bytes` on a 64-bit target. -/
def usize_le_bytes (n : Nat) : List Nat :=
  [n % 256, n / 256 % 256, n / 65536 % 256, n / 16777216 % 256,
   n / 4294967296 % 256, n / 1099511627776 % 256,
   n / 281474976710656 % 256, n / 72057594037927936 % 256]

/-- Embeds `usize::to_ne_bytes`: the native-endian byte order of the platform,
little-endian bytes when `little_endian` holds and their reversal on a
big-endian platform. -/
def usize_ne_bytes (little_endian : Bool) (n : Nat) : List Nat :=
  if little_endian then usize_le_bytes n else (usize_le_bytes n).reverse

/-- A 4-byte little-endian encoding, following the spec wording "4-byte
little-endian length"; used to compare the source behaviour against the
claim. -/
def le32_bytes (n : Nat) : List Nat :=
  [n % 256, n / 256 % 256, n / 65536 % 256, n / 16777216 % 256]

/-- The shared-memory input delivery of `ForkserverExecutor::run_target`
(`src/executor/forkserver.rs`, lines 1270-1291): truncate the input to the
region capacity minus the 4-byte header, write the first
`SHMEM_FUZZ_HDR_SIZE` bytes of `size.to_ne_bytes()` as the header, then the
(truncated) input bytes; the rest of the region keeps its old contents. -/
def write_shmem_input (little_endian : Bool) (map : List Nat)
    (input : List Nat) : List Nat :=
  let size0 := input.length
  let max_size := map.length - SHMEM_FUZZ_HDR_SIZE
  let size := if size0 > max_size then max_size else size0
  let size_in_bytes := usize_ne_bytes little_endian size
  size_in_bytes.take SHMEM_FUZZ_HDR_SIZE ++ input.take size ++
    map.drop (SHMEM_FUZZ_HDR_SIZE + size)

/-- C5 counterexample: the header is written with `to_ne_bytes`, i.e. native
endianness, not little-endian as claimed: on a big-endian platform the four
header bytes written for a 1-byte input into an 8-byte region are not the
4-byte little-endian encoding of the length 1. -/
theorem write_shmem_not_le_counterexample :
    (write_shmem_input false [9, 9, 9, 9, 9, 9, 9, 9] [1]).take 4 ≠
      le32_bytes 1 := by decide

/-- C5 (amended): the shared-memory envelope is
`[4-byte native-endian length | truncated input bytes]`; on a little-endian
platform (where the source is deployed) the header coincides with the 4-byte
little-endian encoding of the truncated length, and an input longer than the
region capacity minus the 4-byte header is truncated to that capacity. -/
theorem write_shmem_input_spec (map input : List Nat)
    (_h4 : 4 ≤ map.length) :
    write_shmem_input true map input =
      le32_bytes (min input.length (map.length - 4)) ++
        input.take (min input.length (map.length - 4)) ++
        map.drop (4 + min input.length (map.length - 4))
    ∧ (input.take (min input.length (map.length - 4))).length =
        min input.length (map.length - 4)
    ∧ min input.length (map.length - 4) ≤ map.length - 4 := by
  have hsz : (if input.length > map.length - SHMEM_FUZZ_HDR_SIZE then
      map.length - SHMEM_FUZZ_HDR_SIZE else input.length) =
      min input.length (map.length - 4) := by
    unfold SHMEM_FUZZ_HDR_SIZE
    split_ifs <;> omega
  refine ⟨?_, ?_, ?_⟩
  · simp only [write_shmem_input, hsz]
    rfl
  · simp only [List.length_take]
    omega
  · omega

/-- Witness for `write_shmem_input_spec`: a 3-byte input into a 6-byte region
is truncated to 2 bytes and the header records length 2. -/
theorem write_shmem_input_spec_witness :
    write_shmem_input true [0, 0, 0, 0, 0, 0] [10, 20, 30] =
      [2, 0, 0, 0, 10, 20] := by
  have h := (write_shmem_input_spec [0, 0, 0, 0, 0, 0] [10, 20, 30]
    (by norm_num)).1
  rw [h]; decide

/-- Embeds `FS_OPT_ENABLED` (`src/executor/forkserver.rs`, line 69), as the u32 bit
pattern. -/
def FS_OPT_ENABLED : Nat := 0x80000001

/-- Embeds `FS_OPT_MAPSIZE` (`src/executor/forkserver.rs`, line 71). -/
def FS_OPT_MAPSIZE : Nat := 0x40000000

/-- Embeds `fs_opt_get_mapsize` (`src/executor/forkserver.rs`, lines 79-81).  The
`i32` computation `((x & 0x00fffffe) >> 1) + 1` only sees the masked
non-negative bits, so the `Nat` computation on the u32 bit pattern agrees. -/
def fs_opt_get_mapsize (x : Nat) : Nat :=
  ((x &&& 0x00fffffe) >>> 1) + 1

/-- The map-size part of the forkserver handshake in
`ForkserverExecutorBuilder::build_helper` (`src/executor/forkserver.rs`,
lines 856-875): when the hello `status` has the enabled and map-size bits
set, extract the raw size, remember it as `real_map_size`, round it up to a
multiple of 64 and store it in `map_size`.  The `assert!` comparing against a
pre-set `map_size` is modelled as an error.  Returns the new
`(map_size, real_map_size)` pair. -/
def build_handshake_map_size (status : Nat) (map_size : Option Nat)
    (real_map_size : Nat) : Except Err (Option Nat × Nat) :=
  if status &&& FS_OPT_ENABLED = FS_OPT_ENABLED ∧
      status &&& FS_OPT_MAPSIZE = FS_OPT_MAPSIZE then
    let ms := fs_opt_get_mapsize status
    let real := ms
    let ms2 := if ms % 64 ≠ 0 then ((ms + 63) >>> 6) <<< 6 else ms
    match map_size with
    | some m =>
      if ms2 ≤ m then .ok (some ms2, real)
      else .error (.unknown "assertion failed: reported map size too large")
    | none => Except.ok (some ms2, real)
  else
    .ok (map_size, real_map_size)

/-- Embeds `map_observer.truncate(dynamic_map_size)` guarded by `self.map_size` in
`ForkserverExecutorBuilder::build_dynamic_map` (`src/executor/forkserver.rs`,
lines 748-750), with the observer map modelled as a list of bytes. -/
def truncate_observer (obs : List Nat) (map_size : Option Nat) : List Nat :=
  match map_size with
  | some s => obs.take s
  | none => obs

/-- C8: for a hello status word with the enabled and map-size bits set, the
recorded map size is `((word & 0x00fffffe) >> 1) + 1` rounded up to the next
multiple of 64 (the value itself when it is already a multiple of 64, as the
divisibility conjuncts state), `real_map_size` keeps the unrounded value, and
the observer is downsized to the recorded size. -/
theorem handshake_map_size_spec (status real0 : Nat) (obs : List Nat)
    (hen : status &&& FS_OPT_ENABLED = FS_OPT_ENABLED)
    (hms : status &&& FS_OPT_MAPSIZE = FS_OPT_MAPSIZE) :
    ∃ M, build_handshake_map_size status none real0 =
        .ok (some M, fs_opt_get_mapsize status)
      ∧ M = 64 * ((fs_opt_get_mapsize status + 63) / 64)
      ∧ fs_opt_get_mapsize status ≤ M
      ∧ M < fs_opt_get_mapsize status + 64
      ∧ M % 64 = 0
      ∧ (fs_opt_get_mapsize status % 64 = 0 → M = fs_opt_get_mapsize status)
      ∧ truncate_observer obs (some M) = obs.take M := by
  have hshift : ∀ a : Nat, (a >>> 6) <<< 6 = 64 * (a / 64) := by
    intro a
    rw [Nat.shiftRight_eq_div_pow, Nat.shiftLeft_eq]
    norm_num
    ring
  by_cases h64 : fs_opt_get_mapsize status % 64 = 0
  · refine ⟨fs_opt_get_mapsize status, ?_, by omega, le_refl _, by omega,
      h64, fun _ => rfl, rfl⟩
    unfold build_handshake_map_size
    rw [if_pos ⟨hen, hms⟩]
    simp only [h64, ne_eq, not_true_eq_false, if_false]
  · refine ⟨64 * ((fs_opt_get_mapsize status + 63) / 64), ?_, rfl, by omega,
      by omega, by omega, fun h => absurd h h64, rfl⟩
    unfold build_handshake_map_size
    rw [if_pos ⟨hen, hms⟩]
    simp only [ne_eq, h64, not_false_eq_true, if_true, hshift]

/-- Witness for `handshake_map_size_spec`: the hello word `0xC00007CF`
(enabled, map-size present, raw size 1000) records map size 1024. -/
theorem handshake_map_size_spec_witness :
    ∃ M, build_handshake_map_size 3221227471 none 0 = .ok (some M, 1000)
      ∧ M = 1024 := by
  obtain ⟨M, h1, h2, -⟩ :=
    handshake_map_size_spec 3221227471 0 [] (by decide) (by decide)
  have e1 : fs_opt_get_mapsize 3221227471 = 1000 := by decide
  rw [e1] at h1 h2
  exact ⟨M, h1, by omega⟩

/-! ## Multi-state container (`src/state.rs`) -/

/-- Embeds `StateAccessMode` (`src/state.rs`, lines 41-53). -/
inductive StateAccessMode
  | singleCorp
  | multiCorpSingleMeta
  | multiCorpMultiMeta
  deriving Repr, DecidableEq

/-- Model of `SerdeAnyMap` / `NamedSerdeAnyMap`: string keys to opaque
payloads. -/
abbrev MetaMap := List (String × Nat)

/-- Embeds `InnerState` (`src/state.rs`, lines 251-281); `C` is the corpus type. -/
structure InnerState (C : Type) where
  corpus : Option C
  metadata : Option MetaMap
  named_metadata : Option MetaMap
  imported : Nat
  executions : Nat
  fuzz_cycles : Nat
  corpus_idx : Option Nat
  stage_idx_stack : List Nat
  stage_depth : Nat
  deriving Repr, DecidableEq

/-- Embeds `InnerState::new` (`src/state.rs`, lines 283-301). -/
def InnerState.new {C : Type} (corpus : Option C)
    (metadata : Option MetaMap) (named_metadata : Option MetaMap) :
    InnerState C :=
  { corpus := corpus
    metadata := metadata
    named_metadata := named_metadata
    imported := 0
    executions := 0
    fuzz_cycles := 0
    corpus_idx := none
    stage_idx_stack := []
    stage_depth := 0 }

/-- The `Prefix` struct of `src/state.rs` (lines 197-210), renamed: the seed
messages driving the target to this state (field `prefix` in the source) and
`PrefixMetadata { outgoing_edges }`. -/
structure PrefixRecord (C : Type) where
  msgs : List C
  outgoing_edges : Nat
  deriving Repr, DecidableEq

/-- Embeds `DEFAULT_MAX_SIZE` from libafl (1 MiB). -/
def DEFAULT_MAX_SIZE : Nat := 1048576

/-- Embeds `LibAFLStarState` (`src/state.rs`, lines 214-249).  `rand` and
`solutions` are opaque payloads with no bearing on the embedded control
flow. -/
structure LibAFLStarState (C : Type) where
  access_mode : StateAccessMode
  idx : Nat
  num_states : Nat
  shared_named_metadata : MetaMap
  shared_metadata : MetaMap
  corpus : Option C
  inner : List (InnerState C)
  prefixes : List (PrefixRecord C)
  last_report_time : Option Nat
  max_size : Nat
  rand : Nat
  solutions : List C
  deriving Repr, DecidableEq

/-- Embeds `MultipleStates::switch_state` for `LibAFLStarState` (`src/state.rs`,
lines 732-739); the Rust guard is `idx.0 > self.num_states - 1` on `usize`,
which agrees with the `Nat` subtraction whenever `num_states ≥ 1`. -/
def LibAFLStarState.switch_state {C : Type} (s : LibAFLStarState C)
    (i : Nat) : Except Err (LibAFLStarState C) :=
  if i > s.num_states - 1 then .error (.illegalState "No such state for idx")
  else .ok { s with idx := i }

/-- The `for idx in 0..self.states_len()` loop body of
`MultipleStates::for_each` (`src/state.rs`, lines 459-470): switch to each id
and run the closure, propagating errors (`?`). -/
def for_each_loop {C : Type}
    (f : LibAFLStarState C → Except Err (LibAFLStarState C)) :
    LibAFLStarState C → List Nat → Except Err (LibAFLStarState C)
  | s, [] => .ok s
  | s, i :: rest =>
    match s.switch_state i with
    | .error e => Except.error e
    | .ok s1 =>
      match f s1 with
      | .error e => Except.error e
      | .ok s2 => for_each_loop f s2 rest

/-- Embeds `MultipleStates::for_each` (`src/state.rs`, lines 459-470): remember the
original id, run the closure on every state id in `0..states_len()`, switch
back to the original id. -/
def LibAFLStarState.for_each {C : Type} (s : LibAFLStarState C)
    (f : LibAFLStarState C → Except Err (LibAFLStarState C)) :
    Except Err (LibAFLStarState C) :=
  let original_idx := s.idx
  match for_each_loop f s (List.range s.num_states) with
  | .error e => Except.error e
  | .ok s1 => s1.switch_state original_idx

/-- The loop performed by `MultipleStates::map_to_vec` (`src/state.rs`,
lines 482-494) through `for_each` with the closure `v.push(f(state)?)`:
the accumulated vector `v` is threaded explicitly. -/
def map_to_vec_loop {C T : Type}
    (f : LibAFLStarState C → Except Err (LibAFLStarState C × T)) :
    LibAFLStarState C → List T → List Nat →
      Except Err (LibAFLStarState C × List T)
  | s, v, [] => Except.ok (s, v)
  | s, v, i :: rest =>
    match s.switch_state i with
    | .error e => Except.error e
    | .ok s1 =>
      match f s1 with
      | .error e => Except.error e
      | .ok (s2, x) => map_to_vec_loop f s2 (v ++ [x]) rest

/-- Embeds `MultipleStates::map_to_vec` (`src/state.rs`, lines 482-494): run the
closure over every state collecting the produced values, restore the original
id (once inside the inner `for_each` and once more by `map_to_vec` itself,
exactly as the source does). -/
def LibAFLStarState.map_to_vec {C T : Type} (s : LibAFLStarState C)
    (f : LibAFLStarState C → Except Err (LibAFLStarState C × T)) :
    Except Err (LibAFLStarState C × List T) :=
  let original_idx := s.idx
  match map_to_vec_loop f s [] (List.range s.num_states) with
  | .error e => Except.error e
  | .ok (s1, v) =>
    match s1.switch_state original_idx with
    | .error e => Except.error e
    | .ok s2 =>
      match s2.switch_state original_idx with
      | .error e => Except.error e
      | .ok s3 => Except.ok (s3, v)

/-- In-place update of one list entry, modelling `&mut self.inner[idx]`. -/
def list_modify {α : Type} : List α → Nat → (α → α) → List α
  | [], _, _ => []
  | a :: rest, 0, g => g a :: rest
  | a :: rest, n + 1, g => a :: list_modify rest n g

/-- Modelled from the spec: `Feedback::init_state` (and the objective's) is
LibAFL library code outside this repository.  Per the spec's data model it
only initialises feedback metadata of the selected state, so it is modelled
as a transformation `g` of the pair (metadata map, named-metadata map),
routed by access mode exactly as `HasMetadata`/`HasNamedMetadata` route for
`LibAFLStarState` (`src/state.rs`, lines 815-867): per-inner-state maps for
`MultiCorpMultiMeta`, the shared maps otherwise. -/
def apply_meta_init {C : Type} (g : MetaMap × MetaMap → MetaMap × MetaMap)
    (s : LibAFLStarState C) : LibAFLStarState C :=
  match s.access_mode with
  | .multiCorpMultiMeta =>
    { s with inner := list_modify s.inner s.idx (fun st =>
        let p := g (st.metadata.getD [], st.named_metadata.getD [])
        { st with metadata := some p.1, named_metadata := some p.2 }) }
  | _ =>
    let p := g (s.shared_metadata, s.shared_named_metadata)
    { s with shared_metadata := p.1, shared_named_metadata := p.2 }

/-- Embeds `LibAFLStarState::new_with_access_mode` (`src/state.rs`, lines 509-601).
`init_fb`/`init_obj` model `feedback.init_state` and `objective.init_state`
(see `apply_meta_init`); `corpora.pop()` on the length-1 vector of the
`SingleCorp` mode is `getLast?`. -/
def new_with_access_mode {C : Type} (rand : Nat) (corpora : List C)
    (solutions : List C)
    (init_fb init_obj : MetaMap × MetaMap → MetaMap × MetaMap)
    (prefixes : List (PrefixRecord C)) (access_mode : StateAccessMode) :
    Except Err (LibAFLStarState C) :=
  if prefixes.length = 0 then
    .error (.illegalArgument "Length of prefixes cannot be 0")
  else
    let check : Except Err Unit :=
      match access_mode with
      | .singleCorp =>
        if corpora.length ≠ 1 then
          .error (.illegalArgument
            "When using SingleCorp access mode, only a single corpus must be supplied.")
        else .ok ()
      | .multiCorpMultiMeta | .multiCorpSingleMeta =>
        if prefixes.length ≠ corpora.length then
          .error (.illegalArgument
            "The number of prefixes supplied must be equal to the number of corpora.")
        else .ok ()
    match check with
    | .error e => Except.error e
    | .ok () =>
      let num_states := prefixes.length
      let pair :=
        match access_mode with
        | .singleCorp =>
          (corpora.getLast?,
            (List.range num_states).map
              (fun _ => InnerState.new (C := C) none none none))
        | .multiCorpSingleMeta =>
          (none, corpora.map (fun corpus => InnerState.new (some corpus) none none))
        | .multiCorpMultiMeta =>
          (none, corpora.map (fun corpus =>
            InnerState.new (some corpus) (some []) (some [])))
      let state : LibAFLStarState C :=
        { access_mode := access_mode
          idx := 0
          num_states := num_states
          shared_named_metadata := []
          shared_metadata := []
          corpus := pair.1
          inner := pair.2
          prefixes := prefixes
          last_report_time := none
          max_size := DEFAULT_MAX_SIZE
          rand := rand
          solutions := solutions }
      state.for_each (fun st =>
        .ok (apply_meta_init init_obj (apply_meta_init init_fb st)))

/-- Embeds `LibAFLStarState::new_single_corpus` (`src/state.rs`, lines 604-625). -/
def new_single_corpus {C : Type} (rand : Nat) (corpus : C)
    (solutions : List C)
    (init_fb init_obj : MetaMap × MetaMap → MetaMap × MetaMap)
    (prefixes : List (PrefixRecord C)) : Except Err (LibAFLStarState C) :=
  new_with_access_mode rand [corpus] solutions init_fb init_obj prefixes
    .singleCorp

/-- Embeds `LibAFLStarState::new_multi_corpus_single_meta` (`src/state.rs`,
lines 628-649). -/
def new_multi_corpus_single_meta {C : Type} (rand : Nat) (corpora : List C)
    (solutions : List C)
    (init_fb init_obj : MetaMap × MetaMap → MetaMap × MetaMap)
    (prefixes : List (PrefixRecord C)) : Except Err (LibAFLStarState C) :=
  new_with_access_mode rand corpora solutions init_fb init_obj prefixes
    .multiCorpSingleMeta

/-- Embeds `LibAFLStarState::new_multi_corpus_multi_meta` (`src/state.rs`,
lines 653-674). -/
def new_multi_corpus_multi_meta {C : Type} (rand : Nat) (corpora : List C)
    (solutions : List C)
    (init_fb init_obj : MetaMap × MetaMap → MetaMap × MetaMap)
    (prefixes : List (PrefixRecord C)) : Except Err (LibAFLStarState C) :=
  new_with_access_mode rand corpora solutions init_fb init_obj prefixes
    .multiCorpMultiMeta

/-- Embeds `LibAFLStarState::new` (`src/state.rs`, lines 680-701): same as
`new_multi_corpus_multi_meta`, the default. -/
def LibAFLStarState.new {C : Type} (rand : Nat) (corpora : List C)
    (solutions : List C)
    (init_fb init_obj : MetaMap × MetaMap → MetaMap × MetaMap)
    (prefixes : List (PrefixRecord C)) : Except Err (LibAFLStarState C) :=
  new_with_access_mode rand corpora solutions init_fb init_obj prefixes
    .multiCorpMultiMeta

/-- Spec-side reading of the claim wording for `for_each`: apply the closure
once for each given state id in order, with that state selected as the active
one (no separate switching step). -/
def apply_each_selected {C : Type}
    (f : LibAFLStarState C → Except Err (LibAFLStarState C)) :
    LibAFLStarState C → List Nat → Except Err (LibAFLStarState C)
  | s, [] => .ok s
  | s, i :: rest =>
    match f { s with idx := i } with
    | .error e => Except.error e
    | .ok u => apply_each_selected f u rest

/-- Spec-side reading of the claim wording for `map_to_vec`: apply the
closure once for each given state id in order with that state active,
collecting the produced values in order. -/
def map_each_selected {C T : Type}
    (f : LibAFLStarState C → Except Err (LibAFLStarState C × T)) :
    LibAFLStarState C → List T → List Nat →
      Except Err (LibAFLStarState C × List T)
  | s, v, [] => Except.ok (s, v)
  | s, v, i :: rest =>
    match f { s with idx := i } with
    | .error e => Except.error e
    | .ok (u, x) => map_each_selected f u (v ++ [x]) rest

theorem star_switch_ok {C : Type} (s : LibAFLStarState C) (i : Nat)
    (h : i < s.num_states) : s.switch_state i = .ok { s with idx := i } := by
  unfold LibAFLStarState.switch_state
  rw [if_neg (by omega)]

theorem star_switch_eq {C : Type} {s t : LibAFLStarState C} {i : Nat}
    (h : s.switch_state i = .ok t) : t = { s with idx := i } := by
  unfold LibAFLStarState.switch_state at h
  split at h
  · exact absurd h (by simp)
  · injection h with h
    exact h.symm

theorem for_each_loop_eq {C : Type}
    (f : LibAFLStarState C → Except Err (LibAFLStarState C))
    (hf : ∀ t u, f t = .ok u → u.num_states = t.num_states) :
    ∀ (l : List Nat) (s : LibAFLStarState C), (∀ i ∈ l, i < s.num_states) →
      for_each_loop f s l = apply_each_selected f s l := by
  intro l
  induction l with
  | nil => intro s _; rfl
  | cons i rest ih =>
    intro s hl
    have hiN : i < s.num_states := hl i (List.mem_cons_self i rest)
    show (match s.switch_state i with
      | .error e => Except.error e
      | .ok s1 =>
        match f s1 with
        | .error e => Except.error e
        | .ok s2 => for_each_loop f s2 rest) = _
    rw [star_switch_ok s i hiN]
    show (match f { s with idx := i } with
      | .error e => Except.error e
      | .ok s2 => for_each_loop f s2 rest) = _
    cases hfi : f { s with idx := i } with
    | error e =>
      show Except.error e =
        (match f { s with idx := i } with
          | .error e => Except.error e
          | .ok u => apply_each_selected f u rest)
      rw [hfi]
    | ok u =>
      show for_each_loop f u rest =
        (match f { s with idx := i } with
          | .error e => Except.error e
          | .ok u => apply_each_selected f u rest)
      rw [hfi]
      exact ih u (fun k hk => by
        have hn := hf _ _ hfi
        have : u.num_states = s.num_states := hn
        rw [this]
        exact hl k (List.mem_cons_of_mem i hk))

theorem map_to_vec_loop_eq {C T : Type}
    (f : LibAFLStarState C → Except Err (LibAFLStarState C × T))
    (hf : ∀ t u x, f t = .ok (u, x) → u.num_states = t.num_states) :
    ∀ (l : List Nat) (s : LibAFLStarState C) (v : List T),
      (∀ i ∈ l, i < s.num_states) →
      map_to_vec_loop f s v l = map_each_selected f s v l := by
  intro l
  induction l with
  | nil => intro s v _; rfl
  | cons i rest ih =>
    intro s v hl
    have hiN : i < s.num_states := hl i (List.mem_cons_self i rest)
    cases hfi : f { s with idx := i } with
    | error e =>
      simp only [map_to_vec_loop, map_each_selected, star_switch_ok s i hiN,
        hfi]
    | ok p =>
      obtain ⟨s2, x⟩ := p
      simp only [map_to_vec_loop, map_each_selected, star_switch_ok s i hiN,
        hfi]
      exact ih s2 (v ++ [x]) (fun k hk => by
        have hn := hf _ _ _ hfi
        rw [hn]
        exact hl k (List.mem_cons_of_mem i hk))

theorem apply_each_selected_num_states {C : Type}
    (f : LibAFLStarState C → Except Err (LibAFLStarState C))
    (hf : ∀ t u, f t = .ok u → u.num_states = t.num_states) :
    ∀ (l : List Nat) (s t : LibAFLStarState C),
      apply_each_selected f s l = .ok t → t.num_states = s.num_states := by
  intro l
  induction l with
  | nil =>
    intro s t h
    injection h with h
    rw [h]
  | cons i rest ih =>
    intro s t h
    revert h
    show (match f { s with idx := i } with
      | .error e => Except.error e
      | .ok u => apply_each_selected f u rest) = .ok t → _
    cases hfi : f { s with idx := i } with
    | error e => intro h; exact absurd h (by simp)
    | ok u =>
      intro h
      have h1 := ih u t h
      have h2 := hf _ _ hfi
      rw [h1, h2]

theorem map_each_selected_num_states {C T : Type}
    (f : LibAFLStarState C → Except Err (LibAFLStarState C × T))
    (hf : ∀ t u x, f t = .ok (u, x) → u.num_states = t.num_states) :
    ∀ (l : List Nat) (s t : LibAFLStarState C) (v w : List T),
      map_each_selected f s v l = .ok (t, w) → t.num_states = s.num_states := by
  intro l
  induction l with
  | nil =>
    intro s t v w h
    injection h with h
    rw [show t = s from congrArg Prod.fst h.symm]
  | cons i rest ih =>
    intro s t v w h
    cases hfi : f { s with idx := i } with
    | error e =>
      simp only [map_each_selected, hfi] at h
      exact absurd h (by simp)
    | ok p =>
      obtain ⟨u, x⟩ := p
      simp only [map_each_selected, hfi] at h
      have h1 := ih u t (v ++ [x]) w h
      have h2 := hf _ _ _ hfi
      rw [h1, h2]

/-- C7: `for_each f` and `map_to_vec f` apply the closure once for each
target state id in ascending order with that state selected as the active
one (the refinement equations against `apply_each_selected` and
`map_each_selected` over `List.range states_len`), and on (successful) exit
the active state id equals the one active before the call.  The closure is
assumed not to change the number of states, as no closure in the source
does. -/
theorem for_each_map_to_vec_spec {C T : Type} (s : LibAFLStarState C)
    (f : LibAFLStarState C → Except Err (LibAFLStarState C))
    (g : LibAFLStarState C → Except Err (LibAFLStarState C × T))
    (hidx : s.idx < s.num_states)
    (hf : ∀ t u, f t = .ok u → u.num_states = t.num_states)
    (hg : ∀ t u x, g t = .ok (u, x) → u.num_states = t.num_states) :
    s.for_each f =
      (match apply_each_selected f s (List.range s.num_states) with
        | .error e => Except.error e
        | .ok t => Except.ok { t with idx := s.idx })
    ∧ s.map_to_vec g =
      (match map_each_selected g s [] (List.range s.num_states) with
        | .error e => Except.error e
        | .ok (t, v) => Except.ok ({ t with idx := s.idx }, v))
    ∧ (∀ t, s.for_each f = .ok t → t.idx = s.idx)
    ∧ (∀ t v, s.map_to_vec g = .ok (t, v) → t.idx = s.idx) := by
  have hrange : ∀ i ∈ List.range s.num_states, i < s.num_states :=
    fun i hi => List.mem_range.mp hi
  refine ⟨?_, ?_, ?_, ?_⟩
  · show (match for_each_loop f s (List.range s.num_states) with
      | .error e => Except.error e
      | .ok s1 => s1.switch_state s.idx) = _
    rw [for_each_loop_eq f hf (List.range s.num_states) s hrange]
    cases hae : apply_each_selected f s (List.range s.num_states) with
    | error e => rfl
    | ok t =>
      have hn := apply_each_selected_num_states f hf _ s t hae
      exact star_switch_ok t s.idx (by rw [hn]; exact hidx)
  · cases hae : map_each_selected g s [] (List.range s.num_states) with
    | error e =>
      simp only [LibAFLStarState.map_to_vec,
        map_to_vec_loop_eq g hg (List.range s.num_states) s [] hrange, hae]
    | ok p =>
      obtain ⟨t, v⟩ := p
      have hn := map_each_selected_num_states g hg _ s t [] v hae
      have hlt : s.idx < t.num_states := by rw [hn]; exact hidx
      simp only [LibAFLStarState.map_to_vec,
        map_to_vec_loop_eq g hg (List.range s.num_states) s [] hrange, hae,
        star_switch_ok t s.idx hlt,
        star_switch_ok ({ t with idx := s.idx } : LibAFLStarState C) s.idx hlt]
  · intro t h
    revert h
    show (match for_each_loop f s (List.range s.num_states) with
      | .error e => Except.error e
      | .ok s1 => s1.switch_state s.idx) = .ok t → _
    cases for_each_loop f s (List.range s.num_states) with
    | error e => intro h; exact absurd h (by simp)
    | ok s1 =>
      intro h
      rw [star_switch_eq h]
  · intro t v h
    cases hloop : map_to_vec_loop g s [] (List.range s.num_states) with
    | error e =>
      simp only [LibAFLStarState.map_to_vec, hloop] at h
      exact absurd h (by simp)
    | ok p =>
      obtain ⟨s1, w⟩ := p
      cases hs2 : s1.switch_state s.idx with
      | error e =>
        simp only [LibAFLStarState.map_to_vec, hloop, hs2] at h
        exact absurd h (by simp)
      | ok s2 =>
        cases hs3 : s2.switch_state s.idx with
        | error e =>
          simp only [LibAFLStarState.map_to_vec, hloop, hs2, hs3] at h
          exact absurd h (by simp)
        | ok s3 =>
          simp only [LibAFLStarState.map_to_vec, hloop, hs2, hs3] at h
          have h3 : s3 = { s2 with idx := s.idx } := star_switch_eq hs3
          injection h with h
          have ht : t = s3 := congrArg Prod.fst h.symm
          rw [ht, h3]

/-- Witness for `for_each_map_to_vec_spec`: a concrete two-state container; a
closure that increments the opaque `rand` payload runs once per state and the
active id (1) is restored. -/
theorem for_each_map_to_vec_spec_witness :
    LibAFLStarState.for_each
      (⟨.singleCorp, 1, 2, [], [], none,
        [InnerState.new none none none, InnerState.new none none none],
        [⟨[], 1⟩, ⟨[], 2⟩], none, 100, 0, []⟩ : LibAFLStarState Nat)
      (fun st => Except.ok { st with rand := st.rand + 1 }) =
      .ok ⟨.singleCorp, 1, 2, [], [], none,
        [InnerState.new none none none, InnerState.new none none none],
        [⟨[], 1⟩, ⟨[], 2⟩], none, 100, 2, []⟩ := by
  have h := (for_each_map_to_vec_spec
    (⟨.singleCorp, 1, 2, [], [], none,
      [InnerState.new none none none, InnerState.new none none none],
      [⟨[], 1⟩, ⟨[], 2⟩], none, 100, 0, []⟩ : LibAFLStarState Nat)
    (fun st => Except.ok { st with rand := st.rand + 1 })
    (fun st => Except.ok (st, st.idx))
    (by decide)
    (fun t u hh => by
      injection hh with hh
      rw [← hh])
    (fun t u x hh => by
      injection hh with hh
      rw [show u = t from congrArg Prod.fst hh.symm])).1
  rw [h]
  rfl

theorem list_modify_forall {α : Type} (P : α → Prop) (g : α → α)
    (hg : ∀ a, P a → P (g a)) :
    ∀ (l : List α) (n : Nat), (∀ a ∈ l, P a) →
      ∀ a ∈ list_modify l n g, P a := by
  intro l
  induction l with
  | nil => intro n h a ha; simp [list_modify] at ha
  | cons b rest ih =>
    intro n h a ha
    cases n with
    | zero =>
      simp only [list_modify] at ha
      rcases List.mem_cons.mp ha with rfl | ha2
      · exact hg b (h b (List.mem_cons_self b rest))
      · exact h a (List.mem_cons_of_mem b ha2)
    | succ m =>
      simp only [list_modify] at ha
      rcases List.mem_cons.mp ha with rfl | ha2
      · exact h a (List.mem_cons_self a rest)
      · exact ih m (fun c hc => h c (List.mem_cons_of_mem b hc)) a ha2

theorem apply_meta_init_fields {C : Type}
    (g : MetaMap × MetaMap → MetaMap × MetaMap) (s : LibAFLStarState C) :
    (apply_meta_init g s).num_states = s.num_states
    ∧ (apply_meta_init g s).idx = s.idx := by
  obtain ⟨am, idx, ns, snm, sm, co, inn, pre, lrt, ms, rnd, sol⟩ := s
  cases am <;> simp [apply_meta_init]

theorem apply_meta_init_inner {C : Type} (P : InnerState C → Prop)
    (hP : ∀ (st : InnerState C) m nm,
      P st → P { st with metadata := m, named_metadata := nm })
    (g : MetaMap × MetaMap → MetaMap × MetaMap) (s : LibAFLStarState C)
    (h : ∀ st ∈ s.inner, P st) :
    ∀ st ∈ (apply_meta_init g s).inner, P st := by
  obtain ⟨am, idx, ns, snm, sm, co, inn, pre, lrt, ms, rnd, sol⟩ := s
  cases am with
  | singleCorp => exact h
  | multiCorpSingleMeta => exact h
  | multiCorpMultiMeta =>
    intro st hst
    exact list_modify_forall P _ (fun a ha => hP a _ _ ha) inn idx h st hst

theorem for_each_loop_ok_props {C : Type} (P : InnerState C → Prop)
    (f : LibAFLStarState C → Except Err (LibAFLStarState C))
    (hf : ∀ s t, f s = .ok t → t.num_states = s.num_states ∧
      ((∀ st ∈ s.inner, P st) → ∀ st ∈ t.inner, P st)) :
    ∀ (l : List Nat) (s t : LibAFLStarState C),
      for_each_loop f s l = .ok t →
      t.num_states = s.num_states ∧
      ((∀ st ∈ s.inner, P st) → ∀ st ∈ t.inner, P st) := by
  intro l
  induction l with
  | nil =>
    intro s t h
    injection h with h
    subst h
    exact ⟨rfl, id⟩
  | cons i rest ih =>
    intro s t h
    cases hsw : s.switch_state i with
    | error e =>
      simp only [for_each_loop, hsw] at h
      exact absurd h (by simp)
    | ok s1 =>
      cases hfi : f s1 with
      | error e =>
        simp only [for_each_loop, hsw, hfi] at h
        exact absurd h (by simp)
      | ok s2 =>
        simp only [for_each_loop, hsw, hfi] at h
        obtain ⟨hn1, hp1⟩ := hf s1 s2 hfi
        obtain ⟨hn2, hp2⟩ := ih s2 t h
        have hs1 : s1 = { s with idx := i } := star_switch_eq hsw
        subst hs1
        exact ⟨by rw [hn2, hn1], fun hP => hp2 (hp1 hP)⟩

theorem for_each_ok_props {C : Type} (P : InnerState C → Prop)
    (f : LibAFLStarState C → Except Err (LibAFLStarState C))
    (hf : ∀ s t, f s = .ok t → t.num_states = s.num_states ∧
      ((∀ st ∈ s.inner, P st) → ∀ st ∈ t.inner, P st))
    (s t : LibAFLStarState C) (h : s.for_each f = .ok t) :
    t.idx = s.idx ∧ t.num_states = s.num_states ∧
      ((∀ st ∈ s.inner, P st) → ∀ st ∈ t.inner, P st) := by
  cases hloop : for_each_loop f s (List.range s.num_states) with
  | error e =>
    simp only [LibAFLStarState.for_each, hloop] at h
    exact absurd h (by simp)
  | ok s1 =>
    simp only [LibAFLStarState.for_each, hloop] at h
    have ht := star_switch_eq h
    obtain ⟨hn, hp⟩ := for_each_loop_ok_props P f hf _ s s1 hloop
    subst ht
    exact ⟨rfl, hn, hp⟩

/-- An inner state as produced by `InnerState::new`: all counters zero, empty
stage bookkeeping, no current corpus index. -/
def fresh_inner {C : Type} (st : InnerState C) : Prop :=
  st.imported = 0 ∧ st.executions = 0 ∧ st.fuzz_cycles = 0 ∧
  st.stage_idx_stack = [] ∧ st.stage_depth = 0 ∧ st.corpus_idx = none

theorem success_analysis {C : Type} (state t : LibAFLStarState C)
    (init_fb init_obj : MetaMap × MetaMap → MetaMap × MetaMap)
    (h : state.for_each (fun st =>
      Except.ok (apply_meta_init init_obj (apply_meta_init init_fb st))) =
      .ok t)
    (h0 : ∀ st ∈ state.inner, fresh_inner st) :
    t.idx = state.idx ∧ t.num_states = state.num_states ∧
      ∀ st ∈ t.inner, fresh_inner st := by
  have hf : ∀ (s1 t1 : LibAFLStarState C), (fun st =>
      Except.ok (apply_meta_init init_obj (apply_meta_init init_fb st))) s1 =
        (Except.ok t1 : Except Err (LibAFLStarState C)) →
      t1.num_states = s1.num_states ∧
      ((∀ st ∈ s1.inner, fresh_inner st) → ∀ st ∈ t1.inner, fresh_inner st) := by
    intro s1 t1 hh
    injection hh with hh
    subst hh
    refine ⟨?_, ?_⟩
    · rw [(apply_meta_init_fields init_obj _).1,
        (apply_meta_init_fields init_fb s1).1]
    · intro hP
      exact apply_meta_init_inner _ (fun st m nm hst => hst) init_obj _
        (apply_meta_init_inner _ (fun st m nm hst => hst) init_fb s1 hP)
  obtain ⟨h1, h2, h3⟩ := for_each_ok_props _ _ hf state t h
  exact ⟨h1, h2, h3 h0⟩

/-- C9: constructing the multi-state container fails with an `IllegalArgument`
error unless exactly one corpus is supplied in `SingleCorp` mode, or exactly
as many corpora as prefixes in the two multi-corpus modes; on a violation the
result is the error, so no state value is produced. -/
theorem new_with_access_mode_arg_check {C : Type} (rand : Nat)
    (corpora solutions : List C)
    (init_fb init_obj : MetaMap × MetaMap → MetaMap × MetaMap)
    (prefixes : List (PrefixRecord C)) (mode : StateAccessMode)
    (hviol : (mode = .singleCorp ∧ corpora.length ≠ 1) ∨
      ((mode = .multiCorpSingleMeta ∨ mode = .multiCorpMultiMeta) ∧
        corpora.length ≠ prefixes.length)) :
    ∃ msg, new_with_access_mode rand corpora solutions init_fb init_obj
      prefixes mode = .error (.illegalArgument msg) := by
  by_cases hpre : prefixes.length = 0
  · refine ⟨"Length of prefixes cannot be 0", ?_⟩
    unfold new_with_access_mode
    rw [if_pos hpre]
  · rcases hviol with ⟨hm, hc⟩ | ⟨hm, hc⟩
    · subst hm
      refine ⟨"When using SingleCorp access mode, only a single corpus must be supplied.",
        ?_⟩
      simp [new_with_access_mode, hpre, hc]
    · have hc2 : prefixes.length ≠ corpora.length := fun hh => hc hh.symm
      rcases hm with rfl | rfl
      · refine ⟨"The number of prefixes supplied must be equal to the number of corpora.",
          ?_⟩
        simp [new_with_access_mode, hpre, hc2]
      · refine ⟨"The number of prefixes supplied must be equal to the number of corpora.",
          ?_⟩
        simp [new_with_access_mode, hpre, hc2]

/-- Witness for `new_with_access_mode_arg_check`: `SingleCorp` mode with zero
corpora supplied is rejected. -/
theorem new_with_access_mode_arg_check_witness :
    ∃ msg, new_with_access_mode 0 ([] : List Nat) [] id id
      [⟨[], 0⟩] .singleCorp = .error (.illegalArgument msg) :=
  new_with_access_mode_arg_check 0 [] [] id id [⟨[], 0⟩] .singleCorp
    (Or.inl ⟨rfl, by decide⟩)

/-- C10: every public constructor rejects an empty prefix vector with an
error (so a constructed container has at least one state), and on success the
active state index is 0, the number of states equals the number of prefixes
(hence is at least 1), and every inner state starts with `imported`,
`executions` and `fuzz_cycles` equal to 0, an empty stage-index stack, stage
depth 0 and no current corpus index. -/
theorem constructors_init_spec {C : Type} (rand : Nat) (corpus : C)
    (corpora solutions : List C)
    (init_fb init_obj : MetaMap × MetaMap → MetaMap × MetaMap)
    (prefixes : List (PrefixRecord C)) :
    (prefixes = [] →
      (∃ m, new_single_corpus rand corpus solutions init_fb init_obj prefixes
        = .error (.illegalArgument m))
      ∧ (∃ m, new_multi_corpus_single_meta rand corpora solutions init_fb
        init_obj prefixes = .error (.illegalArgument m))
      ∧ (∃ m, new_multi_corpus_multi_meta rand corpora solutions init_fb
        init_obj prefixes = .error (.illegalArgument m))
      ∧ (∃ m, LibAFLStarState.new rand corpora solutions init_fb init_obj
        prefixes = .error (.illegalArgument m)))
    ∧ (∀ mode t, new_with_access_mode rand corpora solutions init_fb init_obj
        prefixes mode = .ok t →
      t.idx = 0 ∧ t.num_states = prefixes.length ∧ 1 ≤ t.num_states ∧
      ∀ st ∈ t.inner, st.imported = 0 ∧ st.executions = 0 ∧
        st.fuzz_cycles = 0 ∧ st.stage_idx_stack = [] ∧ st.stage_depth = 0 ∧
        st.corpus_idx = none) := by
  constructor
  · intro hp
    subst hp
    exact ⟨⟨"Length of prefixes cannot be 0", rfl⟩,
      ⟨"Length of prefixes cannot be 0", rfl⟩,
      ⟨"Length of prefixes cannot be 0", rfl⟩,
      ⟨"Length of prefixes cannot be 0", rfl⟩⟩
  · intro mode t h
    by_cases hpre : prefixes.length = 0
    · exfalso
      unfold new_with_access_mode at h
      rw [if_pos hpre] at h
      exact absurd h (by simp)
    · unfold new_with_access_mode at h
      rw [if_neg hpre] at h
      cases mode with
      | singleCorp =>
        by_cases hc : corpora.length ≠ 1
        · rw [if_pos hc] at h
          exact absurd h (by simp)
        · rw [if_neg hc] at h
          have hres := success_analysis _ t init_fb init_obj h
            (fun st hst => by
              rcases List.mem_map.mp hst with ⟨i, -, rfl⟩
              exact ⟨rfl, rfl, rfl, rfl, rfl, rfl⟩)
          have hn : t.num_states = prefixes.length := hres.2.1
          exact ⟨hres.1, hn, by rw [hn]; exact Nat.pos_of_ne_zero hpre,
            hres.2.2⟩
      | multiCorpSingleMeta =>
        by_cases hc : prefixes.length ≠ corpora.length
        · rw [if_pos hc] at h
          exact absurd h (by simp)
        · rw [if_neg hc] at h
          have hres := success_analysis _ t init_fb init_obj h
            (fun st hst => by
              rcases List.mem_map.mp hst with ⟨c, -, rfl⟩
              exact ⟨rfl, rfl, rfl, rfl, rfl, rfl⟩)
          have hn : t.num_states = prefixes.length := hres.2.1
          exact ⟨hres.1, hn, by rw [hn]; exact Nat.pos_of_ne_zero hpre,
            hres.2.2⟩
      | multiCorpMultiMeta =>
        by_cases hc : prefixes.length ≠ corpora.length
        · rw [if_pos hc] at h
          exact absurd h (by simp)
        · rw [if_neg hc] at h
          have hres := success_analysis _ t init_fb init_obj h
            (fun st hst => by
              rcases List.mem_map.mp hst with ⟨c, -, rfl⟩
              exact ⟨rfl, rfl, rfl, rfl, rfl, rfl⟩)
          have hn : t.num_states = prefixes.length := hres.2.1
          exact ⟨hres.1, hn, by rw [hn]; exact Nat.pos_of_ne_zero hpre,
            hres.2.2⟩

/-- Witness for `constructors_init_spec`: empty prefixes are rejected, and a
concrete two-state `MultiCorpMultiMeta` construction succeeds with active
index 0 and at least one state. -/
theorem constructors_init_spec_witness :
    (∃ m, new_single_corpus 0 (0 : Nat) [] id id [] =
      .error (.illegalArgument m))
    ∧ ∃ t, new_with_access_mode 0 [5, 6] ([] : List Nat) id id
        [⟨[], 1⟩, ⟨[], 2⟩] .multiCorpMultiMeta = .ok t
      ∧ t.idx = 0 ∧ 1 ≤ t.num_states := by
  have e : new_with_access_mode 0 [5, 6] ([] : List Nat) id id
      [⟨[], 1⟩, ⟨[], 2⟩] .multiCorpMultiMeta = .ok
      ⟨.multiCorpMultiMeta, 0, 2, [], [], none,
        [⟨some 5, some [], some [], 0, 0, 0, none, [], 0⟩,
         ⟨some 6, some [], some [], 0, 0, 0, none, [], 0⟩],
        [⟨[], 1⟩, ⟨[], 2⟩], none, DEFAULT_MAX_SIZE, 0, []⟩ := by rfl
  have h1 := (constructors_init_spec 0 (0 : Nat) ([] : List Nat) [] id id
    ([] : List (PrefixRecord Nat))).1 rfl
  have h2 := (constructors_init_spec 0 (0 : Nat) [5, 6] ([] : List Nat) id id
    [⟨[], 1⟩, ⟨[], 2⟩]).2 .multiCorpMultiMeta _ e
  exact ⟨h1.1, _, e, h2.1, h2.2.2.1⟩

end LibAFLStar
